import Mathlib

/-!
Verification of the configuration handling and the interactive-CLI
automation harness of the code-server-labs repository.

The Python sources embedded here are:
* `code_server_colab_setup.py` — `ConfigManager` (JSON configuration with
  recursive default merging) and `CodeServerManager._inject_polyfill_into_extension`
  (the crypto-shim injector);
* `vscode_server_installer.py` — `VSCodeServerInstaller` (its `load_config`
  top-level merge, the `setup_tunnel` monitoring loop with its output scanner,
  responder and timeout/completion judge, and `stop_tunnel`).

JSON documents are modelled by the inductive type `JValue`; Python `dict`s
become association lists in insertion order, and the fact that a Python dict
never holds a key twice is captured by the well-formedness predicate `WFv`.
-/

/-- A JSON value as handled by Python's `json` module: objects are kept as
association lists in insertion order, mirroring Python dict semantics. -/
inductive JValue where
  | null : JValue
  | bool : Bool → JValue
  | num : Int → JValue
  | str : String → JValue
  | arr : List JValue → JValue
  | obj : List (String × JValue) → JValue

/-- The keys of an object's field list, in order. -/
def keysOf (m : List (String × JValue)) : List String :=
  m.map Prod.fst

/-- First-match lookup in an object's field list (Python `result[key]` read /
`key in result`). -/
def lookupKey (m : List (String × JValue)) (k : String) : Option JValue :=
  match m with
  | [] => none
  | (k', v) :: rest => if k' = k then some v else lookupKey rest k

/-- Python `result[key] = value`: replace the value of an existing key in
place, otherwise append the new key at the end. -/
def setKey (m : List (String × JValue)) (k : String) (v : JValue) : List (String × JValue) :=
  match m with
  | [] => [(k, v)]
  | (k', v') :: rest => if k' = k then (k', v) :: rest else (k', v') :: setKey rest k v

/-- `ConfigManager._merge_config` (code_server_colab_setup.py, lines 193-201):

    result = default.copy()
    for key, value in user.items():
        if key in result and isinstance(result[key], dict) and isinstance(value, dict):
            result[key] = self._merge_config(result[key], value)
        else:
            result[key] = value
    return result
-/
def _merge_config : List (String × JValue) → List (String × JValue) → List (String × JValue)
  | d, [] => d
  | d, (k, JValue.obj usub) :: rest =>
      (match lookupKey d k with
       | some (JValue.obj dsub) =>
           _merge_config (setKey d k (JValue.obj (_merge_config dsub usub))) rest
       | _ => _merge_config (setKey d k (JValue.obj usub)) rest)
  | d, (k, v) :: rest => _merge_config (setKey d k v) rest
termination_by _ u => sizeOf u
decreasing_by
  all_goals simp_wf <;> omega

/-- The value stored for one user entry by a `_merge_config` step. -/
def mergedValue (d : List (String × JValue)) (k : String) (v : JValue) : JValue :=
  match lookupKey d k, v with
  | some (JValue.obj dsub), JValue.obj usub => JValue.obj (_merge_config dsub usub)
  | _, _ => v

/-- Well-formedness of a JSON value decoded by Python's `json` module: every
object along the tree has pairwise distinct keys (a Python dict can never
hold the same key twice). -/
inductive WFv : JValue → Prop where
  | null : WFv JValue.null
  | bool (b : Bool) : WFv (JValue.bool b)
  | num (n : Int) : WFv (JValue.num n)
  | str (s : String) : WFv (JValue.str s)
  | arr (l : List JValue) : WFv (JValue.arr l)
  | obj (fields : List (String × JValue)) (hnd : (keysOf fields).Nodup)
      (hvals : ∀ p ∈ fields, WFv p.2) : WFv (JValue.obj fields)

/-- Well-formedness of an object's field list. -/
def WFf (fields : List (String × JValue)) : Prop :=
  (keysOf fields).Nodup ∧ ∀ p ∈ fields, WFv p.2

/-- The inline defaults-filling loop of `VSCodeServerInstaller.load_config`
(vscode_server_installer.py, lines 62-66):

    for key, value in default_config.items():
        if key not in config:
            config[key] = value
    return config
-/
def fill_missing_defaults : List (String × JValue) → List (String × JValue) →
    List (String × JValue)
  | [], config => config
  | (k, v) :: rest, config =>
      fill_missing_defaults rest (if k ∈ keysOf config then config else config ++ [(k, v)])

/-- `DEFAULT_CONFIG` of code_server_colab_setup.py (lines 74-131), with
`Path.home()` passed in as `home`. -/
def DEFAULT_CONFIG (home : String) : List (String × JValue) :=
  [ ("server_type", JValue.str ("code-server")),
    ("code_server", JValue.obj [
      ("version", JValue.str ("4.23.1")),
      ("port", JValue.num 8080),
      ("auth", JValue.str ("password")),
      ("password", JValue.str ("")),
      ("bind_addr", JValue.str ("127.0.0.1")),
      ("extensions_dir", JValue.str (home ++ "/.local/share/code-server/extensions")),
      ("user_data_dir", JValue.str (home ++ "/.local/share/code-server"))]),
    ("vscode_server", JValue.obj [
      ("version", JValue.str ("latest")),
      ("tunnel_name", JValue.str ("")),
      ("accept_server_license_terms", JValue.bool false),
      ("enable_telemetry", JValue.bool false),
      ("install_dir", JValue.str (home ++ "/.local/lib/vscode-server")),
      ("bin_path", JValue.str (home ++ "/.local/bin/code"))]),
    ("ngrok", JValue.obj [
      ("auth_token", JValue.str ("")),
      ("region", JValue.str ("us")),
      ("protocol", JValue.str ("http"))]),
    ("extensions", JValue.obj [
      ("popular", JValue.arr [
        JValue.str ("ms-python.python"),
        JValue.str ("ms-python.vscode-pylance"),
        JValue.str ("ms-toolsai.jupyter"),
        JValue.str ("ms-vscode.vscode-json"),
        JValue.str ("redhat.vscode-yaml"),
        JValue.str ("ms-vscode.theme-tomorrow-night-blue"),
        JValue.str ("PKief.material-icon-theme"),
        JValue.str ("ms-vscode.vscode-typescript-next"),
        JValue.str ("bradlc.vscode-tailwindcss"),
        JValue.str ("esbenp.prettier-vscode")]),
      ("custom", JValue.arr []),
      ("microsoft_extensions", JValue.arr [
        JValue.str ("ms-python.python"),
        JValue.str ("ms-python.vscode-pylance"),
        JValue.str ("ms-toolsai.jupyter"),
        JValue.str ("ms-vscode.vscode-json"),
        JValue.str ("ms-vscode.theme-tomorrow-night-blue"),
        JValue.str ("ms-vscode.vscode-typescript-next"),
        JValue.str ("ms-vscode.cpptools"),
        JValue.str ("ms-dotnettools.csharp"),
        JValue.str ("ms-vscode.powershell")]),
      ("fallback_registry", JValue.str ("https://open-vsx.org/vscode/gallery")),
      ("microsoft_marketplace",
        JValue.str ("https://marketplace.visualstudio.com/_apis/public/gallery"))]),
    ("colab", JValue.obj [
      ("auto_detect", JValue.bool true),
      ("optimize_resources", JValue.bool true),
      ("persist_config", JValue.bool true)])]

/-- `default_config` of `VSCodeServerInstaller.load_config`
(vscode_server_installer.py, lines 43-56). -/
def vscode_default_config : List (String × JValue) :=
  [ ("tunnel_name", JValue.str ("")),
    ("extensions", JValue.arr [
        JValue.str ("ms-python.python"),
        JValue.str ("ms-python.vscode-pylance"),
        JValue.str ("ms-toolsai.jupyter"),
        JValue.str ("ms-vscode.vscode-json"),
        JValue.str ("redhat.vscode-yaml"),
        JValue.str ("ms-vscode.theme-tomorrow-night-blue"),
        JValue.str ("PKief.material-icon-theme")]),
    ("server_installed", JValue.bool false),
    ("tunnel_configured", JValue.bool false)]

/-- State of the on-disk configuration file as seen by `load_config`. -/
inductive ConfigFile where
  | missing : ConfigFile
  | present : String → ConfigFile
deriving DecidableEq

/-- Outcome of `json.load` on the raw file contents: a decoded top-level
object, or an exception (malformed JSON, a read error, or a non-object
document). -/
inductive ParseResult where
  | ok : List (String × JValue) → ParseResult
  | err : ParseResult

/-- `ConfigManager.load_config` (code_server_colab_setup.py, lines 171-183).
The function only ever opens the file for reading, so the file state is
returned unchanged alongside the configuration. -/
def ConfigManager_load_config (home : String) (parse : String → ParseResult) :
    ConfigFile → List (String × JValue) × ConfigFile
  | ConfigFile.missing => (DEFAULT_CONFIG home, ConfigFile.missing)
  | ConfigFile.present raw =>
      match parse raw with
      | ParseResult.ok config =>
          (_merge_config (DEFAULT_CONFIG home) config, ConfigFile.present raw)
      | ParseResult.err => (DEFAULT_CONFIG home, ConfigFile.present raw)

/-- `VSCodeServerInstaller.load_config` (vscode_server_installer.py, lines
41-70). The function only ever opens the file for reading, so the file state
is returned unchanged alongside the configuration. -/
def VSCodeServerInstaller_load_config (parse : String → ParseResult) :
    ConfigFile → List (String × JValue) × ConfigFile
  | ConfigFile.missing => (vscode_default_config, ConfigFile.missing)
  | ConfigFile.present raw =>
      match parse raw with
      | ParseResult.ok config =>
          (fill_missing_defaults vscode_default_config config, ConfigFile.present raw)
      | ParseResult.err => (vscode_default_config, ConfigFile.present raw)

/-- Python's `str.strip()`: drop leading and trailing whitespace. -/
def pyStrip (s : String) : String :=
  String.mk (((s.data.dropWhile Char.isWhitespace).reverse.dropWhile Char.isWhitespace).reverse)

/-- Python's `str.lower()` (the prompts scanned are ASCII). -/
def pyLower (s : String) : String :=
  String.mk (s.data.map Char.toLower)

/-- Substring search on character lists (Python's `in` on strings). -/
def containsSubList (pat : List Char) : List Char → Bool
  | [] => pat.isPrefixOf []
  | c :: rest => pat.isPrefixOf (c :: rest) || containsSubList pat rest

/-- Python `pat in s`. -/
def containsSub (pat s : String) : Bool :=
  containsSubList pat.data s.data

def loginPromptPattern : String := "How would you like to log in"

/-- Down arrow plus Enter, the scripted response sent to the child's stdin. -/
def authMethodResponse : String := "\x1b[B\n"

def microsoftAccountPat : String := "Microsoft Account"

def githubAccountPat : String := "GitHub Account"

def ansiCursorUp2Pat : String := "[2A"

def ansiEraseLinePat : String := "[2K"

def ansiCursorDown1Pat : String := "[1B"

def deviceLoginUrlPat : String := "github.com/login/device"

def useCodePat : String := "use code"

def openThisLinkPat : String := "Open this link"

def openTheLinkPat : String := "open the link"

def successfullyPat : String := "successfully"

def errorPat : String := "error"

def waitingPat : String := "waiting"

def grantAccessPat : String := "To grant access"

def tunnelPat : String := "tunnel"

def readyPat : String := "ready"

def startedPat : String := "started"

def runningPat : String := "running"

def authenticationPat : String := "authentication"

def completePat : String := "complete"

def successfulPat : String := "successful"

def loggedInPat : String := "logged in"

def starPat : String := "*"

def hideCursorPat : String := "[?25l"

def pointerPat : String := "❯"

def timestamp2025Pat : String := "[2025-"

def infoPat : String := "info"

/-- Classification tag of one scanned output line: which branch of the
`if`/`elif` chain of `setup_tunnel` (vscode_server_installer.py, lines
299-360) handles the line. -/
inductive Tag where
  | loginPrompt : Tag
  | menuRedraw : Tag
  | deviceUrl : Tag
  | deviceCode : Tag
  | authLink : Tag
  | successMsg : Tag
  | errorMsg : Tag
  | waitingMsg : Tag
  | grantAccess : Tag
  | tunnelReady : Tag
  | tunnelStarted : Tag
  | authComplete : Tag
  | loggedIn : Tag
  | otherOutput : Tag
  | timestamped : Tag
  | suppressed : Tag
deriving DecidableEq

/-- The mutable state of the `setup_tunnel` monitoring loop: the captured
transcript (`output_lines`), the already-answered flag (`auth_method_sent`)
and everything written to the child's stdin so far. -/
structure LoopState where
  outputLines : List String
  authMethodSent : Bool
  stdinWrites : List String
deriving DecidableEq

def initialLoopState : LoopState :=
  { outputLines := [], authMethodSent := false, stdinWrites := [] }

/-- Branches 2-15 of the scanner chain (everything after the login-prompt
responder branch). Returns the tag and whether the line is echoed to the
operator; only the menu-redraw echo decision reads the transcript
(`output_lines.count(line) < 3`) and the already-answered flag. -/
def classifyRest (sent : Bool) (out : List String) (l : String) : Tag × Bool :=
  if containsSub microsoftAccountPat l || containsSub githubAccountPat l ||
      containsSub ansiCursorUp2Pat l || containsSub ansiEraseLinePat l ||
      containsSub ansiCursorDown1Pat l then
    (Tag.menuRedraw, !sent && out.count l < 3)
  else if containsSub deviceLoginUrlPat l then
    (Tag.deviceUrl, true)
  else if containsSub useCodePat (pyLower l) then
    (Tag.deviceCode, true)
  else if containsSub openThisLinkPat l || containsSub openTheLinkPat (pyLower l) then
    (Tag.authLink, true)
  else if containsSub successfullyPat (pyLower l) then
    (Tag.successMsg, true)
  else if containsSub errorPat (pyLower l) then
    (Tag.errorMsg, true)
  else if containsSub waitingPat (pyLower l) then
    (Tag.waitingMsg, true)
  else if containsSub grantAccessPat l then
    (Tag.grantAccess, true)
  else if containsSub tunnelPat (pyLower l) && containsSub readyPat (pyLower l) then
    (Tag.tunnelReady, true)
  else if containsSub tunnelPat (pyLower l) &&
      (containsSub startedPat (pyLower l) || containsSub runningPat (pyLower l)) then
    (Tag.tunnelStarted, true)
  else if containsSub authenticationPat (pyLower l) &&
      (containsSub completePat (pyLower l) || containsSub successfulPat (pyLower l)) then
    (Tag.authComplete, true)
  else if containsSub loggedInPat (pyLower l) then
    (Tag.loggedIn, true)
  else if !(l == "") && !(containsSub starPat l || containsSub hideCursorPat l ||
      containsSub pointerPat l || containsSub timestamp2025Pat l) then
    (Tag.otherOutput, true)
  else if containsSub timestamp2025Pat l &&
      (containsSub infoPat (pyLower l) || containsSub errorPat (pyLower l)) then
    (Tag.timestamped, true)
  else
    (Tag.suppressed, false)

/-- Processing of one line read by the `setup_tunnel` monitoring loop
(vscode_server_installer.py, lines 289-360): strip it, append it to the
transcript, and, when non-empty, classify it; on the first login prompt the
responder writes the down-arrow-plus-Enter response to the child's stdin and
sets `auth_method_sent`. Returns the new state, the tag of the branch taken,
and whether the line was echoed. -/
def stepLine (st : LoopState) (raw : String) : LoopState × Option Tag × Bool :=
  let l := pyStrip raw
  let out := st.outputLines ++ [l]
  if l = "" then
    ({ st with outputLines := out }, none, false)
  else if containsSub loginPromptPattern l && !st.authMethodSent then
    ({ outputLines := out, authMethodSent := true,
       stdinWrites := st.stdinWrites ++ [authMethodResponse] }, some Tag.loginPrompt, true)
  else
    let tc := classifyRest st.authMethodSent out l
    ({ st with outputLines := out }, some tc.1, tc.2)

/-- The monitoring loop's line processing folded over a whole sequence of
output lines. -/
def runLines (st : LoopState) : List String → LoopState
  | [] => st
  | raw :: rest => runLines (stepLine st raw).1 rest

/-- The sequence of classification tags produced for a sequence of lines. -/
def tagSeq (st : LoopState) : List String → List (Option Tag)
  | [] => []
  | raw :: rest => (stepLine st raw).2.1 :: tagSeq (stepLine st raw).1 rest

/-- One iteration of the `setup_tunnel` polling loop as observed from the
outside: the elapsed wall-clock seconds at the timeout check, the line
returned by `readline()` (`none` when it returned an empty string), the
result of `process.poll()`, and the lines still buffered when the process
has exited (`process.stdout.read()`). -/
structure TraceStep where
  elapsed : Nat
  read : Option String
  poll : Option Int
  remaining : List String

/-- Terminal classification of one monitoring session. -/
inductive MonitorResult where
  | timedOut : MonitorResult
  | finished : Int → MonitorResult
  | stillRunning : MonitorResult
deriving DecidableEq

/-- After the child exits, the leftover stdout is split into lines and every
non-empty stripped line is appended to the transcript
(vscode_server_installer.py, lines 367-373). -/
def appendRemaining (st : LoopState) (rem : List String) : LoopState :=
  rem.foldl
    (fun s r =>
      if pyStrip r = "" then s
      else { s with outputLines := s.outputLines ++ [pyStrip r] })
    st

/-- The `while True` monitoring loop of `setup_tunnel`
(vscode_server_installer.py, lines 275-390): each iteration first checks the
wall-clock timeout, then reads and processes one line, then polls the child
for an exit code. -/
def runMonitor (timeoutSeconds : Nat) (st : LoopState) :
    List TraceStep → LoopState × MonitorResult
  | [] => (st, MonitorResult.stillRunning)
  | step :: rest =>
      if step.elapsed > timeoutSeconds then
        (st, MonitorResult.timedOut)
      else
        let st1 := match step.read with
          | none => st
          | some raw => if raw = "" then st else (stepLine st raw).1
        match step.poll with
        | some code => (appendRemaining st1 step.remaining, MonitorResult.finished code)
        | none => runMonitor timeoutSeconds st1 rest

/-- The boolean `setup_tunnel` returns for each terminal monitor result:
`False` on timeout, `poll == 0` on exit (`stillRunning` means the trace
ended with the loop still going, so no return value yet). -/
def setupReturn : MonitorResult → Option Bool
  | MonitorResult.timedOut => some false
  | MonitorResult.finished code => some (code == 0)
  | MonitorResult.stillRunning => none

/-- The session outcome computed only from the timing and exit-code
projection of a trace. -/
def outcomeSpec (t : Nat) : List (Nat × Option Int) → MonitorResult
  | [] => MonitorResult.stillRunning
  | (e, p) :: rest =>
      if e > t then MonitorResult.timedOut
      else
        match p with
        | some code => MonitorResult.finished code
        | none => outcomeSpec t rest

/-- A trace times out: some step exceeds the bound and every earlier step
was within the bound with the child still running. -/
def TimesOut (t : Nat) (steps : List TraceStep) : Prop :=
  ∃ pre step suf, steps = pre ++ step :: suf ∧ step.elapsed > t ∧
    ∀ q ∈ pre, q.elapsed ≤ t ∧ q.poll = none

inductive ChildSignal where
  | terminate : ChildSignal
  | kill : ChildSignal
deriving DecidableEq

/-- The signals sent on timeout (vscode_server_installer.py, lines 280-284):
`terminate`, then — only if the child is still alive after the 5-second
grace `wait` — `kill`. -/
def timeoutKillSignals (exitsWithinGrace : Bool) : List ChildSignal :=
  [ChildSignal.terminate] ++ (if exitsWithinGrace then [] else [ChildSignal.kill])

/-- `VSCodeServerInstaller.stop_tunnel` (vscode_server_installer.py, lines
491-504): runs `pkill -f 'code tunnel'`, prints one of two messages
depending on whether `pkill` succeeded, and returns `True` unconditionally.
The input is the success of the `pkill` command. -/
def stop_tunnel (pkillSucceeded : Bool) : Bool × String :=
  (true,
    if pkillSucceeded then ("✅ Tunnel berhasil dihentikan!")
    else ("ℹ️  Tidak ada tunnel yang berjalan"))

/-- The marker `_inject_polyfill_into_extension` writes at the top of a
patched file and checks before re-injecting. -/
def injectionMarker : String := "// CRYPTO_POLYFILL_INJECTED"

/-- The sentinel string of the enhanced polyfill, checked first. -/
def enhancedSentinel : String := "Enhanced crypto module polyfill loaded successfully"

/-- The template text between the marker and the polyfill body. -/
def injectionHeaderTail : String :=
  "\n// Crypto polyfill injection for extension compatibility\ntry \x7b\n"

/-- The template text between the polyfill body and the original content. -/
def injectionMiddle : String :=
  "\n\x7d catch (polyfillError) \x7b\n    console.error(\x27[Extension] Failed to load crypto polyfill:\x27, polyfillError);\n\x7d\n\n// Original extension code follows:\n"

/-- The `new_content` f-string of `_inject_polyfill_into_extension`
(code_server_colab_setup.py, lines 1314-1325). -/
def buildInjected (polyfill content : String) : String :=
  "\n" ++ injectionMarker ++ injectionHeaderTail ++ polyfill ++ injectionMiddle ++ content ++ "\n"

/-- One `extension.js` file together with its `.js.backup` sibling
(`none` when no backup file exists). -/
structure ExtFile where
  content : String
  backupContent : Option String
deriving DecidableEq

/-- How one attempt at patching a file can go: cleanly; an exception before
the new content is written (e.g. the read raises); or an exception while
writing, leaving the given half-written content on disk before the
except-branch restores the backup. -/
inductive InjectEvent where
  | ok : InjectEvent
  | failBeforeWrite : InjectEvent
  | failDuringWrite : String → InjectEvent

/-- `CodeServerManager._inject_polyfill_into_extension` on one existing
`extension.js` (code_server_colab_setup.py, lines 1292-1348): create the
backup if absent, skip the write when the sentinel or the marker is already
present, otherwise write the injected content; any exception triggers a
restore of the backup over the extension file. Returns the new file pair
and the number of injections counted (0 or 1). -/
def _inject_polyfill_into_extension (f : ExtFile) (polyfill : String) (ev : InjectEvent) :
    ExtFile × Nat :=
  let backup := f.backupContent.getD f.content
  match ev with
  | InjectEvent.failBeforeWrite =>
      ({ content := backup, backupContent := some backup }, 0)
  | InjectEvent.ok =>
      if containsSub enhancedSentinel f.content then
        ({ content := f.content, backupContent := some backup }, 0)
      else if containsSub injectionMarker f.content then
        ({ content := f.content, backupContent := some backup }, 0)
      else
        ({ content := buildInjected polyfill f.content, backupContent := some backup }, 1)
  | InjectEvent.failDuringWrite _ =>
      if containsSub enhancedSentinel f.content then
        ({ content := f.content, backupContent := some backup }, 0)
      else if containsSub injectionMarker f.content then
        ({ content := f.content, backupContent := some backup }, 0)
      else
        ({ content := backup, backupContent := some backup }, 0)

def demo_defaults : List (String × JValue) :=
  [("a", JValue.num 1), ("b", JValue.obj [("x", JValue.str ("s"))])]

def demo_user : List (String × JValue) :=
  [("b", JValue.obj [("y", JValue.bool true)]), ("c", JValue.num 2)]

theorem merge_nil (d : List (String × JValue)) : _merge_config d [] = d := by
  simp [_merge_config]

theorem merge_cons (d : List (String × JValue)) (k : String) (v : JValue)
    (rest : List (String × JValue)) :
    _merge_config d ((k, v) :: rest) = _merge_config (setKey d k (mergedValue d k v)) rest := by
  cases v with
  | obj usub =>
      cases h : lookupKey d k with
      | none => simp [_merge_config, mergedValue, h]
      | some w =>
          cases w <;> simp [_merge_config, mergedValue, h]
  | null => simp [_merge_config, mergedValue]
  | bool b => simp [_merge_config, mergedValue]
  | num n => simp [_merge_config, mergedValue]
  | str s => simp [_merge_config, mergedValue]
  | arr l => simp [_merge_config, mergedValue]

theorem lookupKey_eq_none (m : List (String × JValue)) (k : String) :
    lookupKey m k = none ↔ k ∉ keysOf m := by
  induction m with
  | nil => simp [lookupKey, keysOf]
  | cons p rest ih =>
      obtain ⟨k', v⟩ := p
      by_cases h : k' = k
      · subst h
        simp [lookupKey, keysOf]
      · simp [lookupKey, keysOf, h, Ne.symm h] at ih ⊢
        exact ih

theorem lookupKey_isSome (m : List (String × JValue)) (k : String) :
    (lookupKey m k).isSome = true ↔ k ∈ keysOf m := by
  rw [Option.isSome_iff_ne_none]
  constructor
  · intro h
    by_contra hmem
    exact h ((lookupKey_eq_none m k).mpr hmem)
  · intro hmem hnone
    exact ((lookupKey_eq_none m k).mp hnone) hmem

theorem lookupKey_setKey_self (m : List (String × JValue)) (k : String) (v : JValue) :
    lookupKey (setKey m k v) k = some v := by
  induction m with
  | nil => simp [setKey, lookupKey]
  | cons p rest ih =>
      obtain ⟨k', v'⟩ := p
      by_cases h : k' = k
      · simp [setKey, lookupKey, h]
      · simp [setKey, lookupKey, h, ih]

theorem lookupKey_setKey_other (m : List (String × JValue)) (k k' : String) (v : JValue)
    (hk : k ≠ k') : lookupKey (setKey m k v) k' = lookupKey m k' := by
  induction m with
  | nil => simp [setKey, lookupKey, hk]
  | cons p rest ih =>
      obtain ⟨k0, v0⟩ := p
      by_cases h : k0 = k
      · subst h
        simp [setKey, lookupKey, hk]
      · simp [setKey, lookupKey, h, ih]

theorem keysOf_setKey (m : List (String × JValue)) (k : String) (v : JValue) :
    keysOf (setKey m k v) = if k ∈ keysOf m then keysOf m else keysOf m ++ [k] := by
  induction m with
  | nil => simp [setKey, keysOf]
  | cons p rest ih =>
      obtain ⟨k0, v0⟩ := p
      by_cases h : k0 = k
      · subst h
        simp [setKey, keysOf]
      · simp only [setKey, if_neg h, keysOf, List.map_cons] at ih ⊢
        rw [ih]
        by_cases hmem : k ∈ keysOf rest
        · simp [keysOf] at hmem
          simp [hmem, Ne.symm h, keysOf]
        · simp [keysOf] at hmem
          simp [hmem, Ne.symm h, keysOf]

/-- Characterization of a lookup in the merged configuration, assuming the
user document has no duplicate keys (true of every Python dict). -/
theorem lookupKey_merge (u d : List (String × JValue)) (k : String)
    (hu : (keysOf u).Nodup) :
    lookupKey (_merge_config d u) k =
      match lookupKey u k with
      | none => lookupKey d k
      | some v => some (mergedValue d k v) := by
  induction u generalizing d with
  | nil => simp [merge_nil, lookupKey]
  | cons p rest ih =>
      obtain ⟨k0, v0⟩ := p
      rw [merge_cons]
      have hrest : (keysOf rest).Nodup := by
        simpa [keysOf] using hu.of_cons
      by_cases h : k0 = k
      · subst h
        have hk0 : k0 ∉ keysOf rest := by
          simp [keysOf] at hu ⊢
          exact fun b hb => hu.1 b hb
        have : lookupKey rest k0 = none := (lookupKey_eq_none rest k0).mpr hk0
        rw [ih _ hrest]
        simp [this, lookupKey, lookupKey_setKey_self]
      · have : lookupKey ((k0, v0) :: rest) k = lookupKey rest k := by
          simp [lookupKey, h]
        rw [ih _ hrest, this]
        rcases hlr : lookupKey rest k with _ | w
        · simp [lookupKey_setKey_other d k0 k _ h]
        · have harg : mergedValue (setKey d k0 (mergedValue d k0 v0)) k w = mergedValue d k w := by
            simp [mergedValue, lookupKey_setKey_other d k0 k _ h]
          simp [harg]

/-- The merged configuration lists the default keys first (in order), then the
user-only keys in user order. -/
theorem keysOf_merge (u d : List (String × JValue)) (hu : (keysOf u).Nodup) :
    keysOf (_merge_config d u) =
      keysOf d ++ (keysOf u).filter (fun k => k ∉ keysOf d) := by
  induction u generalizing d with
  | nil => simp [merge_nil, keysOf]
  | cons p rest ih =>
      obtain ⟨k0, v0⟩ := p
      rw [merge_cons]
      have hrest : (keysOf rest).Nodup := by
        simpa [keysOf] using hu.of_cons
      have hk0 : k0 ∉ keysOf rest := by
        simp [keysOf] at hu ⊢
        exact fun b hb => hu.1 b hb
      rw [ih _ hrest]
      have hcons : keysOf ((k0, v0) :: rest) = k0 :: keysOf rest := rfl
      by_cases hmem : k0 ∈ keysOf d
      · have hset : keysOf (setKey d k0 (mergedValue d k0 v0)) = keysOf d := by
          rw [keysOf_setKey, if_pos hmem]
        rw [hset, hcons, List.filter_cons_of_neg]
        simp [hmem]
      · have hset : keysOf (setKey d k0 (mergedValue d k0 v0)) = keysOf d ++ [k0] := by
          rw [keysOf_setKey, if_neg hmem]
        rw [hset, hcons, List.filter_cons_of_pos]
        swap
        · simp [hmem]
        rw [List.append_assoc, List.singleton_append]
        congr 1
        congr 1
        apply List.filter_congr
        intro k hk
        have hne : k ≠ k0 := fun h => hk0 (h ▸ hk)
        simp [hne]

theorem nodup_keysOf_merge (u d : List (String × JValue))
    (hd : (keysOf d).Nodup) (hu : (keysOf u).Nodup) :
    (keysOf (_merge_config d u)).Nodup := by
  rw [keysOf_merge u d hu]
  refine List.Nodup.append hd (hu.filter _) ?_
  intro k hk hk'
  have := List.of_mem_filter hk'
  simp at this
  exact this hk

/-- Two field lists with the same keys in the same order, no duplicate keys,
and the same lookups are equal. -/
theorem eq_of_keys_lookups (l1 l2 : List (String × JValue))
    (hkeys : keysOf l1 = keysOf l2) (hnd : (keysOf l1).Nodup)
    (hlk : ∀ k, lookupKey l1 k = lookupKey l2 k) : l1 = l2 := by
  induction l1 generalizing l2 with
  | nil =>
      cases l2 with
      | nil => rfl
      | cons q t2 => simp [keysOf] at hkeys
  | cons p t1 ih =>
      obtain ⟨k, v⟩ := p
      cases l2 with
      | nil => simp [keysOf] at hkeys
      | cons q t2 =>
          obtain ⟨k2, v2⟩ := q
          simp only [keysOf, List.map_cons, List.cons.injEq] at hkeys
          obtain ⟨hk, htk⟩ := hkeys
          subst hk
          have hv : v = v2 := by
            have := hlk k
            simpa [lookupKey] using this
          subst hv
          have hknotin : k ∉ keysOf t1 := by
            simp [keysOf] at hnd ⊢
            exact fun b hb => hnd.1 b hb
          have hknotin2 : k ∉ keysOf t2 := by
            have hkk : keysOf t1 = keysOf t2 := htk
            rw [← hkk]
            exact hknotin
          have hndt : (keysOf t1).Nodup := by
            simpa [keysOf] using hnd.of_cons
          refine congrArg _ (ih t2 htk hndt ?_)
          intro k'
          by_cases hkk : k = k'
          · subst hkk
            rw [(lookupKey_eq_none t1 k).mpr hknotin, (lookupKey_eq_none t2 k).mpr hknotin2]
          · have h3 := hlk k'
            simpa [lookupKey, if_neg hkk] using h3

theorem WFv_obj_elim (fields : List (String × JValue)) (h : WFv (JValue.obj fields)) :
    WFf fields := by
  cases h with
  | obj _ hnd hvals => exact ⟨hnd, hvals⟩

theorem lookupKey_mem (m : List (String × JValue)) (k : String) (v : JValue)
    (h : lookupKey m k = some v) : (k, v) ∈ m := by
  induction m with
  | nil => simp [lookupKey] at h
  | cons p rest ih =>
      obtain ⟨k', v'⟩ := p
      by_cases hk : k' = k
      · subst hk
        simp [lookupKey] at h
        simp [h]
      · simp [lookupKey, hk] at h
        exact List.mem_cons_of_mem _ (ih h)

theorem WFf_lookupKey (m : List (String × JValue)) (k : String) (v : JValue)
    (hm : WFf m) (h : lookupKey m k = some v) : WFv v :=
  hm.2 _ (lookupKey_mem m k v h)

theorem sizeOf_lookupKey (m : List (String × JValue)) (k : String) (v : JValue)
    (h : lookupKey m k = some v) : sizeOf v < sizeOf m := by
  have h1 := List.sizeOf_lt_of_mem (lookupKey_mem m k v h)
  have h2 : sizeOf (k, v) = 1 + sizeOf k + sizeOf v := by simp
  omega

theorem mergedValue_of_not_obj (d : List (String × JValue)) (k : String) (v : JValue)
    (h : ∀ usub, v ≠ JValue.obj usub) : mergedValue d k v = v := by
  cases v with
  | obj usub => exact absurd rfl (h usub)
  | null => cases hld : lookupKey d k with
            | none => simp [mergedValue, hld]
            | some w => cases w <;> simp [mergedValue, hld]
  | bool b => cases hld : lookupKey d k with
              | none => simp [mergedValue, hld]
              | some w => cases w <;> simp [mergedValue, hld]
  | num n => cases hld : lookupKey d k with
             | none => simp [mergedValue, hld]
             | some w => cases w <;> simp [mergedValue, hld]
  | str s => cases hld : lookupKey d k with
             | none => simp [mergedValue, hld]
             | some w => cases w <;> simp [mergedValue, hld]
  | arr l => cases hld : lookupKey d k with
             | none => simp [mergedValue, hld]
             | some w => cases w <;> simp [mergedValue, hld]

theorem mergedValue_obj_obj (d : List (String × JValue)) (k : String)
    (dsub usub : List (String × JValue)) (h : lookupKey d k = some (JValue.obj dsub)) :
    mergedValue d k (JValue.obj usub) = JValue.obj (_merge_config dsub usub) := by
  simp [mergedValue, h]

theorem mergedValue_obj_not_obj (d : List (String × JValue)) (k : String)
    (usub : List (String × JValue)) (h : ∀ dsub, lookupKey d k ≠ some (JValue.obj dsub)) :
    mergedValue d k (JValue.obj usub) = JValue.obj usub := by
  cases hld : lookupKey d k with
  | none => simp [mergedValue, hld]
  | some w =>
      cases w with
      | obj dsub => exact absurd hld (h dsub)
      | null => simp [mergedValue, hld]
      | bool b => simp [mergedValue, hld]
      | num n => simp [mergedValue, hld]
      | str s => simp [mergedValue, hld]
      | arr l => simp [mergedValue, hld]

theorem lookupKey_of_mem_nodup (m : List (String × JValue)) (k : String) (v : JValue)
    (hnd : (keysOf m).Nodup) (hmem : (k, v) ∈ m) : lookupKey m k = some v := by
  induction m with
  | nil => simp at hmem
  | cons p rest ih =>
      obtain ⟨k', v'⟩ := p
      by_cases hk : k' = k
      · subst hk
        rcases List.mem_cons.mp hmem with he | hm
        · cases he
          simp [lookupKey]
        · exfalso
          simp [keysOf] at hnd
          exact hnd.1 v hm
      · rcases List.mem_cons.mp hmem with he | hm
        · cases he
          exact absurd rfl hk
        · have hndr : (keysOf rest).Nodup := by
            simpa [keysOf] using hnd.of_cons
          simp only [lookupKey, if_neg hk]
          exact ih hndr hm

/-- A `_merge_config` entry value either passes the user value through
unchanged or recursively merges two nested objects. -/
theorem mergedValue_cases (d : List (String × JValue)) (k : String) (uv : JValue) :
    mergedValue d k uv = uv ∨
    ∃ dsub usub, lookupKey d k = some (JValue.obj dsub) ∧ uv = JValue.obj usub ∧
      mergedValue d k uv = JValue.obj (_merge_config dsub usub) := by
  cases uv with
  | obj usub =>
      rcases hld : lookupKey d k with _ | w
      · refine Or.inl (mergedValue_obj_not_obj d k usub ?_)
        intro dsub hcon
        rw [hld] at hcon
        cases hcon
      · cases w with
        | obj dsub =>
            refine Or.inr ⟨dsub, usub, rfl, rfl, ?_⟩
            exact mergedValue_obj_obj d k dsub usub hld
        | null => refine Or.inl (mergedValue_obj_not_obj d k usub ?_)
                  intro dsub hcon
                  rw [hld] at hcon
                  cases hcon
        | bool b => refine Or.inl (mergedValue_obj_not_obj d k usub ?_)
                    intro dsub hcon
                    rw [hld] at hcon
                    cases hcon
        | num n => refine Or.inl (mergedValue_obj_not_obj d k usub ?_)
                   intro dsub hcon
                   rw [hld] at hcon
                   cases hcon
        | str s => refine Or.inl (mergedValue_obj_not_obj d k usub ?_)
                   intro dsub hcon
                   rw [hld] at hcon
                   cases hcon
        | arr l => refine Or.inl (mergedValue_obj_not_obj d k usub ?_)
                   intro dsub hcon
                   rw [hld] at hcon
                   cases hcon
  | null => exact Or.inl (mergedValue_of_not_obj d k _ (by intro usub h; cases h))
  | bool b => exact Or.inl (mergedValue_of_not_obj d k _ (by intro usub h; cases h))
  | num n => exact Or.inl (mergedValue_of_not_obj d k _ (by intro usub h; cases h))
  | str s => exact Or.inl (mergedValue_of_not_obj d k _ (by intro usub h; cases h))
  | arr l => exact Or.inl (mergedValue_of_not_obj d k _ (by intro usub h; cases h))

/-- Merging two well-formed configurations yields a well-formed configuration. -/
theorem WFf_merge (u d : List (String × JValue)) (hd : WFf d) (hu : WFf u) :
    WFf (_merge_config d u) := by
  have main : ∀ n u d, sizeOf u = n → WFf d → WFf u → WFf (_merge_config d u) := by
    intro n
    induction n using Nat.strong_induction_on with
    | _ n ih =>
        intro u d hn hd hu
        subst hn
        refine ⟨nodup_keysOf_merge u d hd.1 hu.1, ?_⟩
        intro p hp
        obtain ⟨k, v⟩ := p
        have hnd := nodup_keysOf_merge u d hd.1 hu.1
        have hlk : lookupKey (_merge_config d u) k = some v :=
          lookupKey_of_mem_nodup _ k v hnd hp
        rw [lookupKey_merge u d k hu.1] at hlk
        rcases hlu : lookupKey u k with _ | uv
        · rw [hlu] at hlk
          simp only at hlk
          exact WFf_lookupKey d k v hd hlk
        · rw [hlu] at hlk
          simp only [Option.some.injEq] at hlk
          subst hlk
          rcases mergedValue_cases d k uv with hmv | ⟨dsub, usub, hld, huv, hmv⟩
          · rw [hmv]
            exact WFf_lookupKey u k _ hu hlu
          · subst huv
            rw [hmv]
            have hwd : WFf dsub := WFv_obj_elim _ (WFf_lookupKey d k _ hd hld)
            have hwu : WFf usub := WFv_obj_elim _ (WFf_lookupKey u k _ hu hlu)
            have hsz : sizeOf usub < sizeOf u := by
              have h1 := sizeOf_lookupKey u k _ hlu
              have h2 : sizeOf (JValue.obj usub) = 1 + sizeOf usub := by simp
              omega
            have hres := ih (sizeOf usub) hsz usub dsub rfl hwd hwu
            exact WFv.obj _ hres.1 hres.2
  exact main _ u d rfl hd hu

/-- Merging a well-formed configuration with itself is the identity. -/
theorem merge_self (s : List (String × JValue)) (hs : WFf s) : _merge_config s s = s := by
  have main : ∀ n s, sizeOf s = n → WFf s → _merge_config s s = s := by
    intro n
    induction n using Nat.strong_induction_on with
    | _ n ih =>
        intro s hn hs
        subst hn
        refine eq_of_keys_lookups _ _ ?_ (nodup_keysOf_merge s s hs.1 hs.1) ?_
        · rw [keysOf_merge s s hs.1]
          have hfil : (keysOf s).filter (fun k => k ∉ keysOf s) = [] :=
            List.filter_eq_nil_iff.mpr (by intro a ha; simp [ha])
          rw [hfil, List.append_nil]
        · intro k
          rw [lookupKey_merge s s k hs.1]
          rcases hls : lookupKey s k with _ | v
          · simp only
          · simp only [Option.some.injEq]
            rcases mergedValue_cases s k v with hmv | ⟨dsub, usub, hld, hv, hmv⟩
            · exact hmv
            · subst hv
              rw [hld] at hls
              have hsub : dsub = usub := by
                injection hls with h1
                injection h1 with h2
              subst hsub
              rw [hmv]
              have hwu : WFf dsub := WFv_obj_elim _ (WFf_lookupKey s k _ hs hld)
              have hsz : sizeOf dsub < sizeOf s := by
                have h1 := sizeOf_lookupKey s k _ hld
                have h2 : sizeOf (JValue.obj dsub) = 1 + sizeOf dsub := by simp
                omega
              rw [ih (sizeOf dsub) hsz dsub rfl hwu]
  exact main _ s rfl hs

/-- Idempotence of the recursive configuration merge on well-formed
configurations: re-merging the defaults into an already-merged configuration
changes nothing. -/
theorem merge_idem (d u : List (String × JValue)) (hd : WFf d) (hu : WFf u) :
    _merge_config d (_merge_config d u) = _merge_config d u := by
  have main : ∀ n u d, sizeOf u = n → WFf d → WFf u →
      _merge_config d (_merge_config d u) = _merge_config d u := by
    intro n
    induction n using Nat.strong_induction_on with
    | _ n ih =>
        intro u d hn hd hu
        subst hn
        have hM : WFf (_merge_config d u) := WFf_merge u d hd hu
        refine eq_of_keys_lookups _ _ ?_ (nodup_keysOf_merge _ d hd.1 hM.1) ?_
        · rw [keysOf_merge _ d hM.1, keysOf_merge u d hu.1, List.filter_append]
          have h1 : (keysOf d).filter (fun k => k ∉ keysOf d) = [] :=
            List.filter_eq_nil_iff.mpr (by intro a ha; simp [ha])
          rw [h1, List.nil_append, List.filter_filter]
          have h2 : (fun a => decide (a ∉ keysOf d) && decide (a ∉ keysOf d)) =
              (fun a => (decide (a ∉ keysOf d) : Bool)) := by
            funext a
            rw [Bool.and_self]
          rw [h2]
        · intro k
          rw [lookupKey_merge _ d k hM.1, lookupKey_merge u d k hu.1]
          rcases hlu : lookupKey u k with _ | uv
          · simp only
            rcases hld : lookupKey d k with _ | w
            · simp only
            · simp only [Option.some.injEq]
              rcases mergedValue_cases d k w with hmv | ⟨dsub, usub, hld2, hw, hmv⟩
              · exact hmv
              · subst hw
                rw [hld] at hld2
                have hsub : dsub = usub := by
                  injection hld2 with h1
                  injection h1 with h2
                  exact h2.symm
                subst hsub
                rw [hmv]
                have hwd : WFf dsub := WFv_obj_elim _ (WFf_lookupKey d k _ hd hld)
                rw [merge_self dsub hwd]
          · simp only [Option.some.injEq]
            rcases mergedValue_cases d k uv with hmv | ⟨dsub, usub, hld, huv, hmv⟩
            · rw [hmv, hmv]
            · subst huv
              rw [hmv, mergedValue_obj_obj d k dsub _ hld]
              have hwd : WFf dsub := WFv_obj_elim _ (WFf_lookupKey d k _ hd hld)
              have hwu : WFf usub := WFv_obj_elim _ (WFf_lookupKey u k _ hu hlu)
              have hsz : sizeOf usub < sizeOf u := by
                have h1 := sizeOf_lookupKey u k _ hlu
                have h2 : sizeOf (JValue.obj usub) = 1 + sizeOf usub := by simp
                omega
              rw [ih (sizeOf usub) hsz usub dsub rfl hwd hwu]
  exact main _ u d rfl hd hu

theorem lookupKey_append_of_some (m l : List (String × JValue)) (k : String) (v : JValue)
    (h : lookupKey m k = some v) : lookupKey (m ++ l) k = some v := by
  induction m with
  | nil => simp [lookupKey] at h
  | cons p rest ih =>
      obtain ⟨k', v'⟩ := p
      by_cases hk : k' = k
      · subst hk
        simp [lookupKey] at h ⊢
        exact h
      · simp only [lookupKey, if_neg hk] at h ⊢
        exact ih h

theorem lookupKey_append_of_none (m l : List (String × JValue)) (k : String)
    (h : lookupKey m k = none) : lookupKey (m ++ l) k = lookupKey l k := by
  induction m with
  | nil => simp
  | cons p rest ih =>
      obtain ⟨k', v'⟩ := p
      by_cases hk : k' = k
      · subst hk
        simp [lookupKey] at h
      · simp only [lookupKey, if_neg hk] at h ⊢
        exact ih h

/-- A key absent from the user document keeps its default binding after the
recursive merge (no duplicate-key assumption needed). -/
theorem lookupKey_merge_of_not_user (u d : List (String × JValue)) (k : String)
    (h : k ∉ keysOf u) : lookupKey (_merge_config d u) k = lookupKey d k := by
  induction u generalizing d with
  | nil => rw [merge_nil]
  | cons p rest ih =>
      obtain ⟨k0, v0⟩ := p
      have hk : k0 ≠ k := by
        intro he
        exact h (by simp [keysOf, he])
      have hrest : k ∉ keysOf rest := by
        intro hm
        exact h (by simp [keysOf] at hm ⊢; right; exact hm)
      rw [merge_cons, ih _ hrest, lookupKey_setKey_other d k0 k _ hk]

/-- The top-level defaults merge never touches a binding the user already has. -/
theorem fill_missing_defaults_user (dflt config : List (String × JValue)) (k : String)
    (v : JValue) (h : lookupKey config k = some v) :
    lookupKey (fill_missing_defaults dflt config) k = some v := by
  induction dflt generalizing config with
  | nil => simpa [fill_missing_defaults] using h
  | cons p rest ih =>
      obtain ⟨k0, v0⟩ := p
      rw [fill_missing_defaults]
      by_cases hmem : k0 ∈ keysOf config
      · rw [if_pos hmem]
        exact ih _ h
      · rw [if_neg hmem]
        exact ih _ (lookupKey_append_of_some _ _ k v h)

/-- A key the user does not have receives its (first) default binding. -/
theorem fill_missing_defaults_default (dflt config : List (String × JValue)) (k : String)
    (h : k ∉ keysOf config) :
    lookupKey (fill_missing_defaults dflt config) k = lookupKey dflt k := by
  induction dflt generalizing config with
  | nil =>
      rw [fill_missing_defaults, (lookupKey_eq_none config k).mpr h]
      rfl
  | cons p rest ih =>
      obtain ⟨k0, v0⟩ := p
      rw [fill_missing_defaults]
      have hnone : lookupKey config k = none := (lookupKey_eq_none config k).mpr h
      by_cases hk : k0 = k
      · subst hk
        have hmem : k0 ∉ keysOf config := h
        rw [if_neg hmem]
        have hlk : lookupKey (config ++ [(k0, v0)]) k0 = some v0 := by
          rw [lookupKey_append_of_none _ _ _ hnone]
          simp [lookupKey]
        rw [fill_missing_defaults_user rest _ k0 v0 hlk]
        simp [lookupKey]
      · have hstep : ∀ cfg2 : List (String × JValue), cfg2 = config ∨
            cfg2 = config ++ [(k0, v0)] →
            lookupKey (fill_missing_defaults rest cfg2) k = lookupKey rest k := by
          intro cfg2 hcfg
          have hnotin : k ∉ keysOf cfg2 := by
            rcases hcfg with rfl | rfl
            · exact h
            · intro hm
              simp [keysOf] at hm h
              rcases hm with hm | hm
              · obtain ⟨b, hb⟩ := hm
                exact h b hb
              · exact hk hm.symm
          exact ih cfg2 hnotin
        by_cases hmem : k0 ∈ keysOf config
        · rw [if_pos hmem]
          rw [hstep config (Or.inl rfl)]
          simp [lookupKey, hk]
        · rw [if_neg hmem]
          rw [hstep _ (Or.inr rfl)]
          simp [lookupKey, hk]

/-- Filling defaults only ever appends bindings, so every user key survives. -/
theorem fill_missing_defaults_keys_user (dflt config : List (String × JValue)) (k : String)
    (h : k ∈ keysOf config) : k ∈ keysOf (fill_missing_defaults dflt config) := by
  induction dflt generalizing config with
  | nil => simpa [fill_missing_defaults] using h
  | cons p rest ih =>
      obtain ⟨k0, v0⟩ := p
      rw [fill_missing_defaults]
      by_cases hmem : k0 ∈ keysOf config
      · rw [if_pos hmem]
        exact ih _ h
      · rw [if_neg hmem]
        refine ih _ ?_
        simp [keysOf] at h ⊢
        tauto

/-- Every default key is present after the defaults-filling loop. -/
theorem fill_missing_defaults_keys_default (dflt config : List (String × JValue))
    (k : String) (h : k ∈ keysOf dflt) :
    k ∈ keysOf (fill_missing_defaults dflt config) := by
  induction dflt generalizing config with
  | nil => simp [keysOf] at h
  | cons p rest ih =>
      obtain ⟨k0, v0⟩ := p
      rw [fill_missing_defaults]
      by_cases hk : k0 = k
      · subst hk
        by_cases hmem : k0 ∈ keysOf config
        · rw [if_pos hmem]
          exact fill_missing_defaults_keys_user rest _ k0 hmem
        · rw [if_neg hmem]
          refine fill_missing_defaults_keys_user rest _ k0 ?_
          simp [keysOf]
      · have hrest : k ∈ keysOf rest := by
          simp [keysOf] at h
          rcases h with h | h
          · exact absurd h.symm hk
          · simpa [keysOf] using h
        by_cases hmem : k0 ∈ keysOf config
        · rw [if_pos hmem]
          exact ih _ hrest
        · rw [if_neg hmem]
          exact ih _ hrest

theorem containsSubList_iff (pat l : List Char) :
    containsSubList pat l = true ↔ pat <:+: l := by
  induction l with
  | nil =>
      rw [containsSubList, List.isPrefixOf_iff_prefix]
      constructor
      · intro h
        exact h.isInfix
      · intro h
        exact (List.infix_nil.mp h) ▸ List.prefix_refl []
  | cons c rest ih =>
      rw [containsSubList, Bool.or_eq_true, List.isPrefixOf_iff_prefix, ih]
      exact (List.infix_cons_iff).symm

theorem containsSub_buildInjected_marker (polyfill content : String) :
    containsSub injectionMarker (buildInjected polyfill content) = true := by
  rw [containsSub, containsSubList_iff, buildInjected]
  refine ⟨("\n").data,
    (injectionHeaderTail ++ polyfill ++ injectionMiddle ++ content ++ ("\n")).data, ?_⟩
  simp [String.data_append, List.append_assoc]

theorem containsSub_loginPrompt_empty : containsSub loginPromptPattern ("") = false := by
  decide

theorem stepLine_outputLines (st : LoopState) (raw : String) :
    (stepLine st raw).1.outputLines = st.outputLines ++ [pyStrip raw] := by
  unfold stepLine
  by_cases h1 : pyStrip raw = ""
  · simp [h1]
  · by_cases h2 : (containsSub loginPromptPattern (pyStrip raw) && !st.authMethodSent) = true
    · simp [h1, h2]
    · simp [h1, h2]

theorem stepLine_authMethodSent (st : LoopState) (raw : String) :
    (stepLine st raw).1.authMethodSent =
      (st.authMethodSent || containsSub loginPromptPattern (pyStrip raw)) := by
  unfold stepLine
  by_cases h1 : pyStrip raw = ""
  · rw [h1]
    simp [containsSub_loginPrompt_empty]
  · cases hs : st.authMethodSent
    · by_cases h2 : containsSub loginPromptPattern (pyStrip raw) = true
      · simp [h1, h2, hs]
      · rw [Bool.not_eq_true] at h2
        simp [h1, h2, hs]
    · simp [h1, hs]

theorem stepLine_stdinWrites (st : LoopState) (raw : String) :
    (stepLine st raw).1.stdinWrites =
      (if containsSub loginPromptPattern (pyStrip raw) && !st.authMethodSent
       then st.stdinWrites ++ [authMethodResponse] else st.stdinWrites) := by
  unfold stepLine
  by_cases h1 : pyStrip raw = ""
  · rw [h1]
    simp [containsSub_loginPrompt_empty]
  · by_cases h2 : (containsSub loginPromptPattern (pyStrip raw) && !st.authMethodSent) = true
    · simp [h1, h2]
    · rw [Bool.not_eq_true] at h2
      simp [h1, h2]

theorem runLines_authMethodSent (lines : List String) (st : LoopState) :
    (runLines st lines).authMethodSent =
      (st.authMethodSent ||
        lines.any (fun raw => containsSub loginPromptPattern (pyStrip raw))) := by
  induction lines generalizing st with
  | nil => simp [runLines]
  | cons raw rest ih =>
      rw [runLines, ih, stepLine_authMethodSent]
      simp [Bool.or_assoc]

theorem runLines_stdinWrites (lines : List String) (st : LoopState) :
    (runLines st lines).stdinWrites =
      st.stdinWrites ++
        (if !st.authMethodSent &&
            lines.any (fun raw => containsSub loginPromptPattern (pyStrip raw))
         then [authMethodResponse] else []) := by
  induction lines generalizing st with
  | nil => simp [runLines]
  | cons raw rest ih =>
      rw [runLines, ih, stepLine_stdinWrites, stepLine_authMethodSent]
      cases hs : st.authMethodSent
      · by_cases hp : containsSub loginPromptPattern (pyStrip raw) = true
        · simp [hp]
        · rw [Bool.not_eq_true] at hp
          simp [hp]
      · simp

theorem appendRemaining_stdinWrites (rem : List String) (st : LoopState) :
    (appendRemaining st rem).stdinWrites = st.stdinWrites := by
  induction rem generalizing st with
  | nil => rfl
  | cons r rest ih =>
      by_cases h : pyStrip r = ""
      · have hstep : appendRemaining st (r :: rest) = appendRemaining st rest := by
          simp [appendRemaining, h]
        rw [hstep, ih]
      · have hstep : appendRemaining st (r :: rest) =
            appendRemaining { st with outputLines := st.outputLines ++ [pyStrip r] } rest := by
          simp [appendRemaining, h]
        rw [hstep, ih]

theorem runMonitor_outcome (t : Nat) (steps : List TraceStep) (st : LoopState) :
    (runMonitor t st steps).2 =
      outcomeSpec t (steps.map (fun s => (s.elapsed, s.poll))) := by
  induction steps generalizing st with
  | nil => rfl
  | cons step rest ih =>
      rw [runMonitor]
      simp only [List.map_cons, outcomeSpec]
      by_cases h1 : step.elapsed > t
      · simp [h1]
      · simp only [if_neg h1]
        cases hp : step.poll with
        | some code => simp
        | none =>
            simp only
            exact ih _

theorem runMonitor_timedOut_immediate (t : Nat) (st : LoopState) (step : TraceStep)
    (rest : List TraceStep) (h : step.elapsed > t) :
    runMonitor t st (step :: rest) = (st, MonitorResult.timedOut) := by
  rw [runMonitor, if_pos h]

theorem runMonitor_timedOut_iff (t : Nat) (steps : List TraceStep) (st : LoopState) :
    (runMonitor t st steps).2 = MonitorResult.timedOut ↔ TimesOut t steps := by
  rw [runMonitor_outcome]
  induction steps with
  | nil =>
      constructor
      · intro h
        simp [outcomeSpec] at h
      · rintro ⟨pre, s2, suf, habs, -, -⟩
        exact absurd habs (by simp)
  | cons step rest ih =>
      simp only [List.map_cons, outcomeSpec]
      by_cases h1 : step.elapsed > t
      · simp only [if_pos h1]
        constructor
        · intro _
          exact ⟨[], step, rest, rfl, h1, by simp⟩
        · intro _
          trivial
      · simp only [if_neg h1]
        cases hp : step.poll with
        | some code =>
            simp only
            constructor
            · intro h
              simp at h
            · rintro ⟨pre, s2, suf, hdec, hgt, hpre⟩
              cases pre with
              | nil =>
                  simp at hdec
                  obtain ⟨rfl, -⟩ := hdec
                  exact absurd hgt h1
              | cons q pre2 =>
                  simp at hdec
                  obtain ⟨rfl, -⟩ := hdec
                  have h5 := (hpre step (by simp)).2
                  rw [hp] at h5
                  cases h5
        | none =>
            simp only
            rw [ih]
            constructor
            · rintro ⟨pre, s2, suf, rfl, hgt, hpre⟩
              refine ⟨step :: pre, s2, suf, rfl, hgt, ?_⟩
              intro q hq
              rcases List.mem_cons.mp hq with rfl | hq2
              · exact ⟨Nat.le_of_not_lt h1, hp⟩
              · exact hpre q hq2
            · rintro ⟨pre, s2, suf, hdec, hgt, hpre⟩
              cases pre with
              | nil =>
                  simp at hdec
                  obtain ⟨rfl, -⟩ := hdec
                  exact absurd hgt h1
              | cons q pre2 =>
                  simp at hdec
                  obtain ⟨rfl, hrest⟩ := hdec
                  exact ⟨pre2, s2, suf, hrest, hgt, fun q2 hq2 => hpre q2 (by simp [hq2])⟩

theorem classifyRest_tag_pure (sent : Bool) (out1 out2 : List String) (l : String) :
    (classifyRest sent out1 l).1 = (classifyRest sent out2 l).1 := by
  unfold classifyRest
  simp only [apply_ite Prod.fst]

theorem stepLine_tag_eq (st : LoopState) (raw : String) :
    (stepLine st raw).2.1 =
      (if pyStrip raw = "" then none
       else if containsSub loginPromptPattern (pyStrip raw) && !st.authMethodSent then
         some Tag.loginPrompt
       else
         some (classifyRest st.authMethodSent
           (st.outputLines ++ [pyStrip raw]) (pyStrip raw)).1) := by
  unfold stepLine
  by_cases h1 : pyStrip raw = ""
  · simp [h1]
  · by_cases h2 : (containsSub loginPromptPattern (pyStrip raw) && !st.authMethodSent) = true
    · simp [h1, h2]
    · rw [Bool.not_eq_true] at h2
      simp [h1, h2]

theorem stepLine_tag_pure (st1 st2 : LoopState) (raw : String)
    (h : st1.authMethodSent = st2.authMethodSent) :
    (stepLine st1 raw).2.1 = (stepLine st2 raw).2.1 := by
  rw [stepLine_tag_eq, stepLine_tag_eq, h]
  by_cases h1 : pyStrip raw = ""
  · simp [h1]
  · simp only [if_neg h1]
    by_cases h2 : (containsSub loginPromptPattern (pyStrip raw) && !st2.authMethodSent) = true
    · simp [h2]
    · rw [Bool.not_eq_true] at h2
      simp only [h2, Bool.false_eq_true, if_false, Option.some.injEq]
      exact classifyRest_tag_pure st2.authMethodSent _ _ (pyStrip raw)

theorem tagSeq_pure (lines : List String) (st1 st2 : LoopState)
    (h : st1.authMethodSent = st2.authMethodSent) :
    tagSeq st1 lines = tagSeq st2 lines := by
  induction lines generalizing st1 st2 with
  | nil => rfl
  | cons raw rest ih =>
      rw [tagSeq, tagSeq, stepLine_tag_pure st1 st2 raw h]
      rw [ih (stepLine st1 raw).1 (stepLine st2 raw).1
        (by simp [stepLine_authMethodSent, h])]

/-- C1, counterexample to the claim as stated: for the key `a`, present in
both the defaults and the user document with different values (both
dictionaries), `ConfigManager._merge_config` does not keep the user's value
`{}` — it recursively merges and returns `{"x": 1}`. -/
theorem C1_counterexample :
    lookupKey [("a", JValue.obj [("x", JValue.num 1)])] ("a")
      = some (JValue.obj [("x", JValue.num 1)]) ∧
    lookupKey [("a", JValue.obj [])] ("a") = some (JValue.obj []) ∧
    lookupKey (_merge_config
        [("a", JValue.obj [("x", JValue.num 1)])]
        [("a", JValue.obj [])]) ("a")
      = some (JValue.obj [("x", JValue.num 1)]) ∧
    (JValue.obj [] : JValue) ≠ JValue.obj [("x", JValue.num 1)] := by
  refine ⟨rfl, rfl, ?_, ?_⟩
  · rw [merge_cons, merge_nil]
    have hmv : mergedValue [("a", JValue.obj [("x", JValue.num 1)])] ("a") (JValue.obj []) =
        JValue.obj (_merge_config [("x", JValue.num 1)] []) := by
      apply mergedValue_obj_obj
      rfl
    rw [hmv, merge_nil]
    rfl
  · intro h
    injection h with h1
    simp at h1

/-- C1 (amended): the recursive merge of `ConfigManager._merge_config` keeps
the user's value for every key present in the user document except when both
the default and user values are dictionaries, in which case they are merged
recursively; keys present only in the defaults keep their default value, and
no key of either document is dropped. The top-level merge of
`VSCodeServerInstaller.load_config` keeps the user's value for every user
key unconditionally and fills in only the missing default keys. -/
theorem C1_merge_preserves_amended :
    (∀ d u k, k ∉ keysOf u →
      lookupKey (_merge_config d u) k = lookupKey d k) ∧
    (∀ d u k v, (keysOf u).Nodup → lookupKey u k = some v →
      (∀ dsub usub, ¬(lookupKey d k = some (JValue.obj dsub) ∧ v = JValue.obj usub)) →
      lookupKey (_merge_config d u) k = some v) ∧
    (∀ d u k dsub usub, (keysOf u).Nodup →
      lookupKey d k = some (JValue.obj dsub) →
      lookupKey u k = some (JValue.obj usub) →
      lookupKey (_merge_config d u) k = some (JValue.obj (_merge_config dsub usub))) ∧
    (∀ d u k, (keysOf u).Nodup → (k ∈ keysOf d ∨ k ∈ keysOf u) →
      k ∈ keysOf (_merge_config d u)) ∧
    (∀ dflt config k v, lookupKey config k = some v →
      lookupKey (fill_missing_defaults dflt config) k = some v) ∧
    (∀ dflt config k, k ∉ keysOf config →
      lookupKey (fill_missing_defaults dflt config) k = lookupKey dflt k) ∧
    (∀ dflt config k, (k ∈ keysOf dflt ∨ k ∈ keysOf config) →
      k ∈ keysOf (fill_missing_defaults dflt config)) := by
  refine ⟨?_, ?_, ?_, ?_, ?_, ?_, ?_⟩
  · intro d u k h
    exact lookupKey_merge_of_not_user u d k h
  · intro d u k v hnd hlu hno
    rw [lookupKey_merge u d k hnd, hlu]
    simp only [Option.some.injEq]
    rcases mergedValue_cases d k v with hmv | ⟨dsub, usub, hld, hveq, -⟩
    · exact hmv
    · exact absurd ⟨hld, hveq⟩ (hno dsub usub)
  · intro d u k dsub usub hnd hld hlu
    rw [lookupKey_merge u d k hnd, hlu]
    simp only [Option.some.injEq]
    exact mergedValue_obj_obj d k dsub usub hld
  · intro d u k hnd hk
    rw [keysOf_merge u d hnd]
    rcases hk with hk | hk
    · exact List.mem_append_left _ hk
    · by_cases hd : k ∈ keysOf d
      · exact List.mem_append_left _ hd
      · refine List.mem_append_right _ ?_
        refine List.mem_filter.mpr ⟨hk, ?_⟩
        simp [hd]
  · intro dflt config k v h
    exact fill_missing_defaults_user dflt config k v h
  · intro dflt config k h
    exact fill_missing_defaults_default dflt config k h
  · intro dflt config k hk
    rcases hk with hk | hk
    · exact fill_missing_defaults_keys_default dflt config k hk
    · exact fill_missing_defaults_keys_user dflt config k hk

/-- C1, witness: a key present only in the defaults keeps its default
binding through the recursive merge. -/
theorem C1_witness :
    lookupKey (_merge_config [("a", JValue.num 1)] []) ("a")
      = lookupKey [("a", JValue.num 1)] ("a") :=
  C1_merge_preserves_amended.1 [("a", JValue.num 1)] [] ("a") (by simp [keysOf])

/-- C2: `ConfigManager._merge_config` is idempotent on well-formed (Python
dict shaped) documents: `merge(defaults, merge(defaults, user)) =
merge(defaults, user)`. -/
theorem C2_merge_idempotent (d u : List (String × JValue)) (hd : WFf d) (hu : WFf u) :
    _merge_config d (_merge_config d u) = _merge_config d u :=
  merge_idem d u hd hu

theorem demo_defaults_WF : WFf demo_defaults := by
  constructor
  · decide
  · intro p hp
    simp [demo_defaults] at hp
    rcases hp with hp | hp
    · rw [hp]
      exact WFv.num 1
    · rw [hp]
      refine WFv.obj _ (by decide) ?_
      intro q hq
      simp at hq
      rw [hq]
      exact WFv.str _

theorem demo_user_WF : WFf demo_user := by
  constructor
  · decide
  · intro p hp
    simp [demo_user] at hp
    rcases hp with hp | hp
    · rw [hp]
      refine WFv.obj _ (by decide) ?_
      intro q hq
      simp at hq
      rw [hq]
      exact WFv.bool true
    · rw [hp]
      exact WFv.num 2

/-- C2, witness: idempotence at a concrete pair of nested documents. -/
theorem C2_witness :
    _merge_config demo_defaults (_merge_config demo_defaults demo_user) =
      _merge_config demo_defaults demo_user :=
  C2_merge_idempotent demo_defaults demo_user demo_defaults_WF demo_user_WF

/-- C3: within one monitoring session the responder writes the
arrow-key-plus-Enter response to the child's stdin exactly once when some
line contains the login prompt and never otherwise; the write happens at the
first prompt line, the already-answered flag equals "some prompt was seen"
and once set is never cleared, and draining leftover output writes nothing. -/
theorem C3_responder_fires_once :
    (∀ lines : List String,
      (runLines initialLoopState lines).stdinWrites =
        (if lines.any (fun raw => containsSub loginPromptPattern (pyStrip raw))
         then [authMethodResponse] else []) ∧
      (runLines initialLoopState lines).authMethodSent =
        lines.any (fun raw => containsSub loginPromptPattern (pyStrip raw))) ∧
    (∀ pre l post,
      pre.any (fun raw => containsSub loginPromptPattern (pyStrip raw)) = false →
      containsSub loginPromptPattern (pyStrip l) = true →
      (runLines initialLoopState (pre ++ [l])).stdinWrites = [authMethodResponse] ∧
      (runLines initialLoopState (pre ++ l :: post)).stdinWrites = [authMethodResponse]) ∧
    (∀ (st : LoopState) lines, st.authMethodSent = true →
      (runLines st lines).authMethodSent = true) ∧
    (∀ (st : LoopState) rem, (appendRemaining st rem).stdinWrites = st.stdinWrites) := by
  refine ⟨?_, ?_, ?_, ?_⟩
  · intro lines
    constructor
    · rw [runLines_stdinWrites]
      simp [initialLoopState]
    · rw [runLines_authMethodSent]
      simp [initialLoopState]
  · intro pre l post hpre hl
    constructor
    · rw [runLines_stdinWrites]
      simp [initialLoopState, List.any_append, hpre, hl]
    · rw [runLines_stdinWrites]
      simp [initialLoopState, List.any_append, hpre, hl]
  · intro st lines h
    rw [runLines_authMethodSent, h]
    rfl
  · intro st rem
    exact appendRemaining_stdinWrites rem st

/-- C3, witness: fifty redraws of the same prompt trigger exactly one stdin
write, on the first prompt line. -/
theorem C3_witness :
    (runLines initialLoopState
      ([("connecting...")] ++ ("How would you like to log in to Visual Studio Code?") ::
        List.replicate 50 ("How would you like to log in to Visual Studio Code?"))).stdinWrites
      = [authMethodResponse] :=
  (C3_responder_fires_once.2.1 [("connecting...")]
    ("How would you like to log in to Visual Studio Code?")
    (List.replicate 50 ("How would you like to log in to Visual Studio Code?"))
    (by decide) (by decide)).2

/-- C4, counterexample to the claim as stated: a session whose child prints
the error-tagged line `error: bad token` and then exits with code 0 is
reported as success by `setup_tunnel` — an error-tag line does not cause a
failure report, contrary to the claim. -/
theorem C4_counterexample :
    (stepLine initialLoopState ("error: bad token")).2.1 = some Tag.errorMsg ∧
    setupReturn (runMonitor 300 initialLoopState
      [TraceStep.mk 0 (some ("error: bad token")) (some 0) []]).2 = some true := by
  constructor
  · decide
  · decide

/-- C4 (amended): the completion judge of `setup_tunnel` classifies the
outcome from the timing and exit-code projection of the trace alone —
success-tag and error-tag lines neither terminate the session nor influence
the verdict; the session reports success exactly when the child exits with
code 0 and failure when it exits non-zero or times out, and every line read
is captured (stripped) in the transcript, so in the spec's end-to-end
scenario (child prints `error: bad token`, exits 1) the session reports
failure with the error line captured verbatim. -/
theorem C4_judge_amended :
    (∀ t (st : LoopState) steps, (runMonitor t st steps).2 =
      outcomeSpec t (steps.map (fun s => (s.elapsed, s.poll)))) ∧
    (∀ code : Int, setupReturn (MonitorResult.finished code) = some (code == 0)) ∧
    setupReturn MonitorResult.timedOut = some false ∧
    (∀ (st : LoopState) raw, (stepLine st raw).1.outputLines = st.outputLines ++ [pyStrip raw]) ∧
    ((runMonitor 300 initialLoopState
        [TraceStep.mk 0 (some ("error: bad token")) (some 1) []]).2
          = MonitorResult.finished 1 ∧
      setupReturn (runMonitor 300 initialLoopState
        [TraceStep.mk 0 (some ("error: bad token")) (some 1) []]).2 = some false ∧
      ("error: bad token") ∈ (runMonitor 300 initialLoopState
        [TraceStep.mk 0 (some ("error: bad token")) (some 1) []]).1.outputLines) := by
  refine ⟨?_, ?_, rfl, ?_, ?_, ?_, ?_⟩
  · intro t st steps
    exact runMonitor_outcome t steps st
  · intro code
    rfl
  · intro st raw
    exact stepLine_outputLines st raw
  · decide
  · decide
  · decide

/-- C5, counterexample to the claim as stated: a success-tag line
(`Authenticated successfully`) is seen well before the 5-second bound, the
child never exits, and the judge still reports a timeout once the elapsed
time exceeds the bound — a success-tag line is not a terminal condition. -/
theorem C5_counterexample :
    (stepLine initialLoopState ("Authenticated successfully")).2.1 = some Tag.successMsg ∧
    (runMonitor 5 initialLoopState
      [TraceStep.mk 0 (some ("Authenticated successfully")) none [],
       TraceStep.mk 10 none none []]).2 = MonitorResult.timedOut := by
  constructor
  · decide
  · decide

/-- C5 (amended): the judge times out exactly when some polling iteration
sees the elapsed time strictly above the bound while every earlier iteration
was within the bound with the child still running (output tags are not
terminal conditions); on timeout it returns at once without processing the
rest of the trace, sends terminate, and force-kills exactly when the child
does not exit within the grace wait. -/
theorem C5_timeout_amended :
    (∀ t steps (st : LoopState),
      (runMonitor t st steps).2 = MonitorResult.timedOut ↔ TimesOut t steps) ∧
    (∀ t (st : LoopState) step rest, step.elapsed > t →
      runMonitor t st (step :: rest) = (st, MonitorResult.timedOut)) ∧
    (∀ b, ChildSignal.terminate ∈ timeoutKillSignals b) ∧
    (∀ b, ChildSignal.kill ∈ timeoutKillSignals b ↔ b = false) := by
  refine ⟨?_, ?_, ?_, ?_⟩
  · intro t steps st
    exact runMonitor_timedOut_iff t steps st
  · intro t st step rest h
    exact runMonitor_timedOut_immediate t st step rest h
  · intro b
    cases b <;> decide
  · intro b
    cases b <;> decide

/-- C5, witness: with a 5-second bound, a first poll at 10 elapsed seconds
returns a timeout immediately, ignoring the rest of the trace. -/
theorem C5_witness :
    runMonitor 5 initialLoopState
      [TraceStep.mk 10 none none [], TraceStep.mk 11 none (some 0) []] =
      (initialLoopState, MonitorResult.timedOut) :=
  C5_timeout_amended.2.1 5 initialLoopState (TraceStep.mk 10 none none [])
    [TraceStep.mk 11 none (some 0) []] (by decide)

/-- C6: whenever the on-disk configuration file fails to parse (or its read
raises), both `ConfigManager.load_config` and
`VSCodeServerInstaller.load_config` return the compiled-in default
configuration for that run, and the corrupt file is left on disk exactly as
it was — shadowed, not repaired or deleted. -/
theorem C6_corrupt_config_shadowed :
    ∀ (home raw : String) (parse : String → ParseResult), parse raw = ParseResult.err →
      ConfigManager_load_config home parse (ConfigFile.present raw)
        = (DEFAULT_CONFIG home, ConfigFile.present raw) ∧
      VSCodeServerInstaller_load_config parse (ConfigFile.present raw)
        = (vscode_default_config, ConfigFile.present raw) := by
  intro home raw parse h
  constructor
  · simp [ConfigManager_load_config, h]
  · simp [VSCodeServerInstaller_load_config, h]

/-- C6, witness: a concrete unparsable file is shadowed by the defaults and
survives on disk unchanged, for both loaders. -/
theorem C6_witness :
    ConfigManager_load_config ("/root") (fun _ => ParseResult.err)
        (ConfigFile.present ("\x7bnot json")) =
      (DEFAULT_CONFIG ("/root"), ConfigFile.present ("\x7bnot json")) ∧
    VSCodeServerInstaller_load_config (fun _ => ParseResult.err)
        (ConfigFile.present ("\x7bnot json")) =
      (vscode_default_config, ConfigFile.present ("\x7bnot json")) :=
  C6_corrupt_config_shadowed ("/root") ("\x7bnot json") (fun _ => ParseResult.err) rfl

/-- C7: starting from a file with no backup, `_inject_polyfill_into_extension`
records a backup equal to the original contents before any modification, and
on a failure — whether it strikes before or during the write — the extension
file ends up equal to its pre-injection contents, restored from that backup. -/
theorem C7_backup_then_restore :
    ∀ (f : ExtFile) (polyfill : String), f.backupContent = none →
      (∀ ev, (_inject_polyfill_into_extension f polyfill ev).1.backupContent
        = some f.content) ∧
      ((_inject_polyfill_into_extension f polyfill InjectEvent.failBeforeWrite).1.content
        = f.content) ∧
      (∀ half, (_inject_polyfill_into_extension f polyfill
          (InjectEvent.failDuringWrite half)).1.content = f.content) := by
  intro f polyfill h
  have hb : f.backupContent.getD f.content = f.content := by
    rw [h]
    rfl
  refine ⟨?_, ?_, ?_⟩
  · intro ev
    cases ev with
    | ok =>
        simp only [_inject_polyfill_into_extension, hb]
        split_ifs <;> rfl
    | failBeforeWrite =>
        simp [_inject_polyfill_into_extension, hb]
    | failDuringWrite half =>
        simp only [_inject_polyfill_into_extension, hb]
        split_ifs <;> rfl
  · simp [_inject_polyfill_into_extension, hb]
  · intro half
    simp only [_inject_polyfill_into_extension, hb]
    split_ifs <;> rfl

/-- C7, witness: a failure before the write leaves a concrete file intact. -/
theorem C7_witness :
    (_inject_polyfill_into_extension (ExtFile.mk ("original code") none) ("poly")
        InjectEvent.failBeforeWrite).1.content = ("original code") :=
  (C7_backup_then_restore (ExtFile.mk ("original code") none) ("poly") rfl).2.1

/-- C8: the output scanner's classification is a pure function of the single
line plus the already-answered flag: two loop states agreeing on the flag
assign the same tag to every line (whatever their transcripts and stdin
histories), and replaying any sequence of lines from two flag-equal states —
in particular from a reset initial state — yields the same tag sequence. -/
theorem C8_scanner_pure :
    (∀ (st1 st2 : LoopState) raw, st1.authMethodSent = st2.authMethodSent →
      (stepLine st1 raw).2.1 = (stepLine st2 raw).2.1) ∧
    (∀ lines (st1 st2 : LoopState), st1.authMethodSent = st2.authMethodSent →
      tagSeq st1 lines = tagSeq st2 lines) :=
  ⟨fun st1 st2 raw h => stepLine_tag_pure st1 st2 raw h,
   fun lines st1 st2 h => tagSeq_pure lines st1 st2 h⟩

/-- C8, witness: the same two lines get the same tags from the fresh initial
state and from a state with a different transcript and stdin history but the
same flag. -/
theorem C8_witness :
    tagSeq initialLoopState [("error: x"), ("Authenticated successfully")] =
      tagSeq (LoopState.mk [("old junk")] false [("previous write")])
        [("error: x"), ("Authenticated successfully")] :=
  C8_scanner_pure.2 [("error: x"), ("Authenticated successfully")] initialLoopState
    (LoopState.mk [("old junk")] false [("previous write")]) rfl

/-- C9: the injector is idempotent — a file already carrying the injection
marker or the enhanced-polyfill sentinel is returned with its contents
unchanged and an injection count of 0, and applying the injector a second
time to any file changes nothing and counts zero further injections. -/
theorem C9_injection_idempotent :
    (∀ (f : ExtFile) polyfill,
      (containsSub injectionMarker f.content = true ∨
        containsSub enhancedSentinel f.content = true) →
      _inject_polyfill_into_extension f polyfill InjectEvent.ok =
        ({ content := f.content,
           backupContent := some (f.backupContent.getD f.content) }, 0)) ∧
    (∀ (f : ExtFile) polyfill,
      (_inject_polyfill_into_extension
          (_inject_polyfill_into_extension f polyfill InjectEvent.ok).1
          polyfill InjectEvent.ok).1.content =
        (_inject_polyfill_into_extension f polyfill InjectEvent.ok).1.content ∧
      (_inject_polyfill_into_extension
          (_inject_polyfill_into_extension f polyfill InjectEvent.ok).1
          polyfill InjectEvent.ok).2 = 0) := by
  constructor
  · intro f polyfill h
    rcases h with h | h
    · by_cases hs : containsSub enhancedSentinel f.content = true
      · simp [_inject_polyfill_into_extension, hs]
      · simp [_inject_polyfill_into_extension, hs, h]
    · simp [_inject_polyfill_into_extension, h]
  · intro f polyfill
    by_cases hs : containsSub enhancedSentinel f.content = true
    · have h1 : (_inject_polyfill_into_extension f polyfill InjectEvent.ok).1.content
          = f.content := by
        simp [_inject_polyfill_into_extension, hs]
      constructor
      · rw [h1]
        simp [_inject_polyfill_into_extension, hs, h1]
      · rw [_inject_polyfill_into_extension.eq_def]
        simp [h1, hs]
    · by_cases hm : containsSub injectionMarker f.content = true
      · have h1 : (_inject_polyfill_into_extension f polyfill InjectEvent.ok).1.content
            = f.content := by
          simp [_inject_polyfill_into_extension, hs, hm]
        constructor
        · rw [h1]
          simp [_inject_polyfill_into_extension, hs, hm, h1]
        · rw [_inject_polyfill_into_extension.eq_def]
          simp [h1, hs, hm]
      · have h1 : (_inject_polyfill_into_extension f polyfill InjectEvent.ok).1.content
            = buildInjected polyfill f.content := by
          simp [_inject_polyfill_into_extension, hs, hm]
        have hmark := containsSub_buildInjected_marker polyfill f.content
        constructor
        · by_cases hs2 : containsSub enhancedSentinel
              (buildInjected polyfill f.content) = true
          · rw [_inject_polyfill_into_extension.eq_def]
            simp [h1, hs2]
          · rw [_inject_polyfill_into_extension.eq_def]
            simp [h1, hs2, hmark]
        · by_cases hs2 : containsSub enhancedSentinel
              (buildInjected polyfill f.content) = true
          · rw [_inject_polyfill_into_extension.eq_def]
            simp [h1, hs2]
          · rw [_inject_polyfill_into_extension.eq_def]
            simp [h1, hs2, hmark]

/-- C9, witness: a file whose contents are exactly the marker is left
unchanged with zero injections counted. -/
theorem C9_witness :
    _inject_polyfill_into_extension (ExtFile.mk injectionMarker none) ("poly")
        InjectEvent.ok =
      ({ content := injectionMarker, backupContent := some injectionMarker }, 0) :=
  C9_injection_idempotent.1 (ExtFile.mk injectionMarker none) ("poly")
    (Or.inl (by decide))

/-- C10: `stop_tunnel` returns `True` on every invocation, whether or not
the `pkill` found a running tunnel, so its return value cannot distinguish
"tunnel stopped" from "nothing was running". -/
theorem C10_stop_tunnel_always_true :
    (∀ pkillSucceeded, (stop_tunnel pkillSucceeded).1 = true) ∧
    (stop_tunnel true).1 = (stop_tunnel false).1 := by
  constructor
  · intro b
    rfl
  · rfl
